import Mathlib

/-!
Shallow embedding of the item CRUD service:
validation and sanitization utilities (app/core/security.py),
pydantic models (app/models/item.py), and the in-memory item
store (app/services/item_service.py).

Strings are modelled as lists of characters; Python datetimes are
modelled as abstract Nat timestamps passed in explicitly (the source
calls datetime.utcnow() at each mutation).
-/

namespace ItemApp

deriving instance DecidableEq for Except

/-- Python str is modelled as a list of characters. -/
abbrev Str := List Char

/-- Coerce a Lean string literal to the model string type. -/
def str (s : String) : Str := s.data

/-- Characters stripped by Python str.strip(): the Unicode whitespace
set used by str.isspace (tab through carriage return, the 0x1c-0x1f
separators, space, next line, no-break space, and the Unicode space
category code points). -/
def isPySpace (c : Char) : Bool :=
  let n := c.toNat
  (decide (9 ≤ n) && decide (n ≤ 13)) ||
  (decide (28 ≤ n) && decide (n ≤ 31)) ||
  n == 32 || n == 133 || n == 160 || n == 0x1680 ||
  (decide (0x2000 ≤ n) && decide (n ≤ 0x200a)) ||
  n == 0x2028 || n == 0x2029 || n == 0x202f || n == 0x205f || n == 0x3000

/-- Python value.strip(): remove leading and trailing whitespace. -/
def pyStrip (l : Str) : Str :=
  ((l.dropWhile isPySpace).reverse.dropWhile isPySpace).reverse

/-- The character class of the regex [\x5cx00-\x5cx1f\x5cx7f-\x5cx9f]
used by sanitize_string: ASCII control characters. -/
def isCtl (c : Char) : Bool :=
  decide (c.toNat ≤ 0x1f) || (decide (0x7f ≤ c.toNat) && decide (c.toNat ≤ 0x9f))

/-- app/core/security.py sanitize_string(value, max_length): strip
whitespace, remove control characters, truncate to max_length. -/
def sanitize_string (value : Str) (max_length : Nat) : Str :=
  if value = [] then []
  else
    let s1 := pyStrip value
    let s2 := s1.filter (fun c => !isCtl c)
    if max_length < s2.length then s2.take max_length else s2

/-- The character class [a-z0-9-] of the slug regex. -/
def slugChar (c : Char) : Bool :=
  (decide ('a' ≤ c) && decide (c ≤ 'z')) ||
  (decide ('0' ≤ c) && decide (c ≤ '9')) || c == '-'

/-- Python re.match of the pattern caret [a-z0-9-]+ dollar against value.
In Python re, the dollar anchor matches at the end of the string or just
before a single newline at the end of the string, so a value consisting
of one or more class characters followed by one trailing newline also
matches. -/
def slugRegexMatch (value : Str) : Bool :=
  let core := if value.getLast? == some '\n' then value.dropLast else value
  !core.isEmpty && core.all slugChar

/-- Python substring test for a double hyphen inside value. -/
def hasDoubleHyphen : Str → Bool
  | c1 :: c2 :: rest => (c1 == '-' && c2 == '-') || hasDoubleHyphen (c2 :: rest)
  | _ => false

/-- The distinct ValueError messages raised by validate_slug. -/
inductive SlugError where
  | empty
  | badChars
  | edgeHyphen
  | doubleHyphen
deriving DecidableEq

/-- app/core/security.py validate_slug(value): reject the empty string,
strings failing the regex, strings starting or ending with a hyphen, and
strings containing a double hyphen; otherwise return value unchanged. -/
def validate_slug (value : Str) : Except SlugError Str :=
  if value.isEmpty then .error .empty
  else if !slugRegexMatch value then .error .badChars
  else if value.head? == some '-' || value.getLast? == some '-' then .error .edgeHyphen
  else if hasDoubleHyphen value then .error .doubleHyphen
  else .ok value

/-- A pydantic field ValidationError raised while building a model from
app/models/item.py: each case names the field and constraint that
failed. Field constraints (min_length, max_length) are checked on the
incoming value; the after-mode field validators (sanitize_string for
name and description, validate_slug for slug) run afterwards and their
output is not re-checked. -/
inductive FieldError where
  | nameTooShort
  | nameTooLong
  | slugTooShort
  | slugTooLong
  | slugInvalid (e : SlugError)
  | descTooLong
deriving DecidableEq

/-- ItemBase name field: Field(min_length 1, max_length 200) then
the sanitize_name validator. -/
def validateName (n : Str) : Except FieldError Str :=
  if n.length < 1 then .error .nameTooShort
  else if 200 < n.length then .error .nameTooLong
  else .ok (sanitize_string n 200)

/-- ItemBase slug field: Field(min_length 1, max_length 100) then the
validate_slug_field validator. -/
def validateSlugField (sl : Str) : Except FieldError Str :=
  if sl.length < 1 then .error .slugTooShort
  else if 100 < sl.length then .error .slugTooLong
  else match validate_slug sl with
    | .error e => .error (.slugInvalid e)
    | .ok v => .ok v

/-- ItemBase description field: optional, Field(max_length 1000) then
the sanitize_description validator (None passes through). -/
def validateDescription (d : Option Str) : Except FieldError (Option Str) :=
  match d with
  | none => .ok none
  | some s =>
    if 1000 < s.length then .error .descTooLong
    else .ok (some (sanitize_string s 1000))

/-- The data held by a validated ItemCreate model. -/
structure ItemCreate where
  name : Str
  slug : Str
  description : Option Str
deriving DecidableEq

/-- Constructing ItemCreate(name, slug, description): pydantic validates
each field in declaration order. -/
def mkItemCreate (name slug : Str) (description : Option Str) :
    Except FieldError ItemCreate := do
  let n ← validateName name
  let s ← validateSlugField slug
  let d ← validateDescription description
  .ok ⟨n, s, d⟩

/-- The data held by an Item model object. The name is an Option even
though the pydantic annotation is str: the Item model does not enable
validate_assignment, so plain attribute assignment (used by
update_item) can store None in the name field. -/
structure Item where
  id : Nat
  name : Option Str
  slug : Str
  description : Option Str
  created_at : Nat
  updated_at : Nat
deriving DecidableEq

/-- Constructing Item(id, name, slug, description, created_at,
updated_at): re-runs the ItemBase field validation on name, slug and
description; id and the timestamps have no validators. -/
def mkItem (id : Nat) (name slug : Str) (description : Option Str)
    (created_at updated_at : Nat) : Except FieldError Item := do
  let n ← validateName name
  let s ← validateSlugField slug
  let d ← validateDescription description
  .ok ⟨id, some n, s, d, created_at, updated_at⟩

/-- The data held by a validated ItemUpdate model. The outer Option
records whether the field was explicitly set (model_dump with
exclude_unset); the inner Option is the nullable value. -/
structure ItemUpdate where
  name : Option (Option Str)
  description : Option (Option Str)
deriving DecidableEq

/-- ItemUpdate name field: optional nullable str with Field(min_length 1,
max_length 200); an explicitly null value passes the nullable schema and
the validator returns None unchanged. -/
def validateUpdateName : Option (Option Str) → Except FieldError (Option (Option Str))
  | none => .ok none
  | some none => .ok (some none)
  | some (some n) =>
    if n.length < 1 then .error .nameTooShort
    else if 200 < n.length then .error .nameTooLong
    else .ok (some (some (sanitize_string n 200)))

/-- ItemUpdate description field: optional nullable str with
Field(max_length 1000). -/
def validateUpdateDescription : Option (Option Str) → Except FieldError (Option (Option Str))
  | some (some d) =>
    if 1000 < d.length then .error .descTooLong
    else .ok (some (some (sanitize_string d 1000)))
  | x => .ok x

/-- Constructing ItemUpdate from explicitly supplied keyword values. -/
def mkItemUpdate (name description : Option (Option Str)) :
    Except FieldError ItemUpdate := do
  let n ← validateUpdateName name
  let d ← validateUpdateDescription description
  .ok ⟨n, d⟩

/-- The ItemService state: the dict of items keyed by id (modelled as
an association list whose key is the id field of each entry), the
next-id counter, and the slug-to-id index dict. -/
structure ItemService where
  items : List Item
  next_id : Nat
  slug_index : List (Str × Nat)
deriving DecidableEq

/-- ItemService.init: empty storage, counter starts at 1. -/
def initService : ItemService := ⟨[], 1, []⟩

/-- Python dict lookup items.get(k) for the id-keyed item dict. -/
def dictGetItem (items : List Item) (k : Nat) : Option Item :=
  items.find? (fun it => it.id == k)

/-- Python dict lookup for the slug index. -/
def slugGet (idx : List (Str × Nat)) (sl : Str) : Option Nat :=
  (idx.find? (fun p => p.1 == sl)).map (fun p => p.2)

/-- Python dict assignment items[it.id] = it: replace the entry in
place when the key exists, else append. -/
def dictInsertItem (items : List Item) (it : Item) : List Item :=
  if items.any (fun x => x.id == it.id) then
    items.map (fun x => if x.id == it.id then it else x)
  else items ++ [it]

/-- Python dict assignment idx[sl] = i for the slug index. -/
def slugInsert (idx : List (Str × Nat)) (sl : Str) (i : Nat) : List (Str × Nat) :=
  if idx.any (fun p => p.1 == sl) then
    idx.map (fun p => if p.1 == sl then (sl, i) else p)
  else idx ++ [(sl, i)]

/-- The exceptions create_item can raise: the ValueError for an already
indexed slug, or a pydantic ValidationError from the Item constructor. -/
inductive CreateError where
  | duplicateSlug (slug : Str)
  | validation (e : FieldError)
deriving DecidableEq

/-- ItemService.create_item(data): raise on a duplicate slug before any
mutation, build the Item (re-running field validation), then insert
into both dicts and increment the counter. The current time is passed
as now. On an exception the state component is returned unchanged. -/
def create_item (s : ItemService) (data : ItemCreate) (now : Nat) :
    Except CreateError Item × ItemService :=
  if (slugGet s.slug_index data.slug).isSome then
    (.error (.duplicateSlug data.slug), s)
  else
    match mkItem s.next_id data.name data.slug data.description now now with
    | .error e => (.error (.validation e), s)
    | .ok item =>
      (.ok item,
        ⟨dictInsertItem s.items item, s.next_id + 1,
          slugInsert s.slug_index item.slug item.id⟩)

/-- ItemService.get_item(item_id). -/
def get_item (s : ItemService) (item_id : Nat) : Option Item :=
  dictGetItem s.items item_id

/-- ItemService.get_item_by_slug(slug): resolve the slug through the
index, then look up the id. -/
def get_item_by_slug (s : ItemService) (sl : Str) : Option Item :=
  match slugGet s.slug_index sl with
  | none => none
  | some i => dictGetItem s.items i

/-- Python sorted(items.values(), key id): a stable sort by ascending
id (insertion sort is stable, and on the reachable states all ids are
distinct, so any stable sort by id agrees with the source). -/
def sortById (l : List Item) : List Item :=
  l.insertionSort (fun a b => a.id ≤ b.id)

/-- Python list slicing l[a:b] for int bounds a, b: negative indices
count from the end, and both bounds are clamped to the list. -/
def pySlice (l : List Item) (a b : Int) : List Item :=
  let n : Int := l.length
  let a1 : Nat := (if a < 0 then max 0 (n + a) else min a n).toNat
  let b1 : Nat := (if b < 0 then max 0 (n + b) else min b n).toNat
  (l.take b1).drop a1

/-- ItemService.list_items(skip, limit): sort the live items by id and
return the Python slice [skip : skip + limit]. -/
def list_items (s : ItemService) (skip limit : Int) : List Item :=
  pySlice (sortById s.items) skip (skip + limit)

/-- The setattr loop of update_item: assign each explicitly set field
of the exclude_unset dump onto the stored object (no re-validation),
then set updated_at to the current time. -/
def applyUpdate (item : Item) (data : ItemUpdate) (now : Nat) : Item :=
  let item1 := match data.name with
    | none => item
    | some v => { item with name := v }
  let item2 := match data.description with
    | none => item1
    | some v => { item1 with description := v }
  { item2 with updated_at := now }

/-- ItemService.update_item(item_id, data): None when the id is absent;
otherwise mutate the stored object via applyUpdate and return the
updated item. The dict still maps the id to the mutated object,
modelled by replacing the entry. -/
def update_item (s : ItemService) (item_id : Nat) (data : ItemUpdate) (now : Nat) :
    Option (Item × ItemService) :=
  match dictGetItem s.items item_id with
  | none => none
  | some item =>
    let item3 := applyUpdate item data now
    some (item3, { s with items := dictInsertItem s.items item3 })

/-- ItemService.delete_item(item_id): False when the id is absent;
otherwise del both dict entries and return True. The second del raises
KeyError (modelled as None) if the found item's slug is not indexed,
which the store invariant rules out. -/
def delete_item (s : ItemService) (item_id : Nat) : Option (Bool × ItemService) :=
  match dictGetItem s.items item_id with
  | none => some (false, s)
  | some item =>
    if (slugGet s.slug_index item.slug).isSome then
      some (true,
        { s with
            items := s.items.filter (fun x => !(x.id == item_id)),
            slug_index := s.slug_index.filter (fun p => !(p.1 == item.slug)) })
    else none

/-- One successful mutating service call. -/
inductive Step : ItemService → ItemService → Prop where
  | create (data : ItemCreate) (now : Nat) (item : Item) :
      create_item s data now = (.ok item, s2) → Step s s2
  | update (item_id : Nat) (data : ItemUpdate) (now : Nat) (item2 : Item) :
      update_item s item_id data now = some (item2, s2) → Step s s2
  | delete (item_id : Nat) (b : Bool) :
      delete_item s item_id = some (b, s2) → Step s s2

/-- Zero or more service calls. Failed calls return the state
unchanged, so they need no step. -/
inductive Steps : ItemService → ItemService → Prop where
  | refl : Steps s s
  | tail : Steps s t → Step t u → Steps s u

/-- A store state reachable from the freshly initialized service. -/
def Reachable (s : ItemService) : Prop := Steps initService s

/-! Concrete states and auxiliary predicates used by the proofs. -/

/-- A concrete valid creation payload. -/
def demoData : ItemCreate := ⟨str "demo", str "demo", none⟩

/-- The item create_item builds from demoData on the fresh store at time 0. -/
def demoItem : Item := ⟨1, some (str "demo"), str "demo", none, 0, 0⟩

/-- The store after creating demoData on the fresh store. -/
def demoStore : ItemService := ⟨[demoItem], 2, [(str "demo", 1)]⟩

/-- The store invariant: both dicts are mutually consistent, keys are
unique in each, every live id is below the counter, and the counter is
at least 1. -/
def Inv (s : ItemService) : Prop :=
  (∀ it ∈ s.items, slugGet s.slug_index it.slug = some it.id) ∧
  (∀ p ∈ s.slug_index, ∃ it, it ∈ s.items ∧ it.id = p.2 ∧ it.slug = p.1) ∧
  s.items.Pairwise (fun a b => a.id ≠ b.id) ∧
  s.slug_index.Pairwise (fun a b => a.1 ≠ b.1) ∧
  (∀ it ∈ s.items, it.id < s.next_id) ∧
  1 ≤ s.next_id

/-- The id i is dead: no live item carries it and the counter has
passed it, so no later create can ever assign it again. -/
def IdFree (i : Nat) (s : ItemService) : Prop :=
  (∀ it ∈ s.items, it.id ≠ i) ∧ i < s.next_id

/-- The ItemCreate produced by validating the raw name built from a
space, a control character, another space and the letter x: the
sanitizer strips the outer whitespace first and only then removes the
control character, so one leading space survives validation. -/
def cexData : ItemCreate := ⟨str " x", str "cex", none⟩

/-- The item actually stored for cexData: the Item constructor
re-sanitizes the name, stripping the surviving space. -/
def cexItem : Item := ⟨1, some (str "x"), str "cex", none, 5, 5⟩

/-- The store after creating cexData on the fresh store at time 5. -/
def cexStore : ItemService := ⟨[cexItem], 2, [(str "cex", 1)]⟩

instance : IsTotal Item (fun a b => a.id ≤ b.id) := ⟨fun a b => Nat.le_total a.id b.id⟩

instance : IsTrans Item (fun a b => a.id ≤ b.id) := ⟨fun _ _ _ h1 h2 => Nat.le_trans h1 h2⟩

/-! Basic facts about the validators. -/

lemma validate_slug_ok {sl v : Str} (h : validate_slug sl = .ok v) : v = sl := by
  unfold validate_slug at h
  split_ifs at h
  simp_all

lemma validateSlugField_ok {sl v : Str} (h : validateSlugField sl = .ok v) : v = sl := by
  unfold validateSlugField at h
  split_ifs at h
  cases hm : validate_slug sl with
  | error e => rw [hm] at h; simp at h
  | ok w => rw [hm] at h; simp at h; rw [← h]; exact validate_slug_ok hm

lemma sanitize_string_eq (v : Str) (n : Nat) :
    sanitize_string v n =
      if v = [] then []
      else if n < ((pyStrip v).filter (fun c => !isCtl c)).length
        then ((pyStrip v).filter (fun c => !isCtl c)).take n
        else (pyStrip v).filter (fun c => !isCtl c) := rfl

lemma sanitize_length (v : Str) (n : Nat) : (sanitize_string v n).length ≤ n := by
  rw [sanitize_string_eq]
  split_ifs with h1 h2
  · simp
  · simp
  · omega

lemma validateName_ok {n0 n : Str} (h : validateName n0 = .ok n) :
    n = sanitize_string n0 200 ∧ 1 ≤ n0.length ∧ n0.length ≤ 200 := by
  unfold validateName at h
  split_ifs at h with h1 h2
  exact ⟨(Except.ok.inj h).symm, by omega, by omega⟩

lemma validateName_ok_of {n0 : Str} (h1 : n0 ≠ []) (h2 : n0.length ≤ 200) :
    validateName n0 = .ok (sanitize_string n0 200) := by
  have hl : 1 ≤ n0.length := by
    cases n0 with
    | nil => simp at h1
    | cons a l => simp
  unfold validateName
  rw [if_neg (by omega), if_neg (by omega)]

lemma validateDescription_ok {d0 d : Option Str} (h : validateDescription d0 = .ok d) :
    d = d0.map (fun x => sanitize_string x 1000) := by
  cases d0 with
  | none => unfold validateDescription at h; simp at h; simp [← h]
  | some s =>
    simp only [validateDescription] at h
    split_ifs at h with h1
    exact (Except.ok.inj h).symm

lemma mkItemCreate_ok {rn rs : Str} {rd : Option Str} {data : ItemCreate}
    (h : mkItemCreate rn rs rd = .ok data) :
    data.name = sanitize_string rn 200 ∧ data.slug = rs ∧
    data.description = rd.map (fun x => sanitize_string x 1000) ∧
    validateSlugField rs = .ok rs := by
  unfold mkItemCreate at h
  cases hn : validateName rn with
  | error e => rw [hn] at h; simp [Bind.bind, Except.bind] at h
  | ok n =>
    rw [hn] at h
    cases hs : validateSlugField rs with
    | error e => rw [hs] at h; simp [Bind.bind, Except.bind] at h
    | ok sv =>
      rw [hs] at h
      cases hd : validateDescription rd with
      | error e => rw [hd] at h; simp [Bind.bind, Except.bind] at h
      | ok dv =>
        rw [hd] at h
        simp only [Bind.bind, Except.bind, Except.ok.injEq] at h
        have hsv : sv = rs := validateSlugField_ok hs
        subst h
        exact ⟨(validateName_ok hn).1, hsv, validateDescription_ok hd, by rw [hsv]⟩

lemma mkItem_ok {id0 : Nat} {name slug : Str} {desc : Option Str} {c u : Nat} {item : Item}
    (h : mkItem id0 name slug desc c u = .ok item) :
    item.id = id0 ∧ item.name = some (sanitize_string name 200) ∧ item.slug = slug ∧
    item.description = desc.map (fun x => sanitize_string x 1000) ∧
    item.created_at = c ∧ item.updated_at = u := by
  unfold mkItem at h
  cases hn : validateName name with
  | error e => rw [hn] at h; simp [Bind.bind, Except.bind] at h
  | ok n =>
    rw [hn] at h
    cases hs : validateSlugField slug with
    | error e => rw [hs] at h; simp [Bind.bind, Except.bind] at h
    | ok sv =>
      rw [hs] at h
      cases hd : validateDescription desc with
      | error e => rw [hd] at h; simp [Bind.bind, Except.bind] at h
      | ok dv =>
        rw [hd] at h
        simp only [Bind.bind, Except.bind, Except.ok.injEq] at h
        subst h
        exact ⟨rfl, by rw [(validateName_ok hn).1], validateSlugField_ok hs,
          validateDescription_ok hd, rfl, rfl⟩

/-! The store invariant and its preservation by the service calls. -/

lemma inv_init : Inv initService := by
  refine ⟨?_, ?_, ?_, ?_, ?_, ?_⟩ <;> simp [initService]

lemma item_eq_of_id {l : List Item} (hp : l.Pairwise (fun a b => a.id ≠ b.id))
    {a b : Item} (ha : a ∈ l) (hb : b ∈ l) (hid : a.id = b.id) : a = b := by
  induction l with
  | nil => simp at ha
  | cons x xs ih =>
    rcases List.mem_cons.mp ha with rfl | ha2
    · rcases List.mem_cons.mp hb with rfl | hb2
      · rfl
      · exact absurd hid ((List.pairwise_cons.mp hp).1 b hb2)
    · rcases List.mem_cons.mp hb with rfl | hb2
      · exact absurd hid.symm ((List.pairwise_cons.mp hp).1 a ha2)
      · exact ih (List.pairwise_cons.mp hp).2 ha2 hb2

lemma slugGet_some {idx : List (Str × Nat)} {sl : Str} {i : Nat}
    (h : slugGet idx sl = some i) :
    ∃ p, p ∈ idx ∧ p.1 = sl ∧ p.2 = i ∧ idx.find? (fun q => q.1 == sl) = some p := by
  unfold slugGet at h
  cases hf : idx.find? (fun q => q.1 == sl) with
  | none => rw [hf] at h; simp at h
  | some p =>
    rw [hf] at h; simp at h
    exact ⟨p, List.mem_of_find?_eq_some hf, by simpa using List.find?_some hf, h, rfl⟩

lemma slugGet_of_mem {idx : List (Str × Nat)}
    (hp : idx.Pairwise (fun a b => a.1 ≠ b.1)) {p : Str × Nat} (hm : p ∈ idx) :
    slugGet idx p.1 = some p.2 := by
  induction idx with
  | nil => simp at hm
  | cons q qs ih =>
    rcases List.mem_cons.mp hm with rfl | hm2
    · unfold slugGet; rw [List.find?_cons_of_pos _ (by simp)]; rfl
    · have hne : q.1 ≠ p.1 := (List.pairwise_cons.mp hp).1 p hm2
      unfold slugGet at ih ⊢
      rw [List.find?_cons_of_neg _ (by simp [hne])]
      exact ih (List.pairwise_cons.mp hp).2 hm2

lemma dictGet_some {l : List Item} {item_id : Nat} {it : Item}
    (h : dictGetItem l item_id = some it) : it ∈ l ∧ it.id = item_id :=
  ⟨List.mem_of_find?_eq_some h, by simpa using List.find?_some h⟩

lemma dictGet_of_mem {l : List Item} (hp : l.Pairwise (fun a b => a.id ≠ b.id))
    {it : Item} (hm : it ∈ l) : dictGetItem l it.id = some it := by
  induction l with
  | nil => simp at hm
  | cons x xs ih =>
    rcases List.mem_cons.mp hm with rfl | hm2
    · unfold dictGetItem; rw [List.find?_cons_of_pos _ (by simp)]
    · have hne : x.id ≠ it.id := (List.pairwise_cons.mp hp).1 it hm2
      unfold dictGetItem at ih ⊢
      rw [List.find?_cons_of_neg _ (by simp [hne])]
      exact ih (List.pairwise_cons.mp hp).2 hm2

lemma slugGet_append_of_some {idx l2 : List (Str × Nat)} {sl : Str} {i : Nat}
    (h : slugGet idx sl = some i) : slugGet (idx ++ l2) sl = some i := by
  obtain ⟨p, _, _, hpi, hf⟩ := slugGet_some h
  unfold slugGet
  rw [List.find?_append, hf]
  simp [hpi]

lemma slugGet_append_of_none {idx l2 : List (Str × Nat)} {sl : Str}
    (h : slugGet idx sl = none) : slugGet (idx ++ l2) sl = slugGet l2 sl := by
  unfold slugGet at h ⊢
  rw [List.find?_append, Option.map_eq_none'.mp h]
  simp

lemma create_item_ok {s : ItemService} {data : ItemCreate} {now : Nat}
    {item : Item} {s2 : ItemService}
    (h : create_item s data now = (.ok item, s2)) :
    slugGet s.slug_index data.slug = none ∧
    mkItem s.next_id data.name data.slug data.description now now = .ok item ∧
    s2 = ⟨dictInsertItem s.items item, s.next_id + 1,
          slugInsert s.slug_index item.slug item.id⟩ := by
  unfold create_item at h
  split_ifs at h with h1
  · simp at h
  · cases hm : mkItem s.next_id data.name data.slug data.description now now with
    | error e => rw [hm] at h; simp at h
    | ok it =>
      rw [hm] at h
      simp at h
      obtain ⟨rfl, rfl⟩ := h
      exact ⟨Option.not_isSome_iff_eq_none.mp h1, rfl, rfl⟩

lemma inv_create {s : ItemService} {data : ItemCreate} {now : Nat}
    {item : Item} {s2 : ItemService} (hi : Inv s)
    (h : create_item s data now = (.ok item, s2)) : Inv s2 := by
  obtain ⟨hfree, hmk, rfl⟩ := create_item_ok h
  obtain ⟨hid, hname, hslug, hdesc, hc, hu⟩ := mkItem_ok hmk
  obtain ⟨i1, i2, i3, i4, i5, i6⟩ := hi
  have hfind_none : s.slug_index.find? (fun q => q.1 == data.slug) = none := by
    unfold slugGet at hfree
    exact Option.map_eq_none'.mp hfree
  have hkeys : ∀ p ∈ s.slug_index, p.1 ≠ data.slug := by
    intro p hp
    have := List.find?_eq_none.mp hfind_none p hp
    simpa using this
  have hins1 : dictInsertItem s.items item = s.items ++ [item] := by
    unfold dictInsertItem
    rw [if_neg]
    simp only [List.any_eq_true, not_exists, not_and]
    intro x hx
    have := i5 x hx
    simp only [beq_iff_eq, hid]
    omega
  have hins2 : slugInsert s.slug_index item.slug item.id
      = s.slug_index ++ [(item.slug, item.id)] := by
    unfold slugInsert
    rw [if_neg]
    simp only [List.any_eq_true, not_exists, not_and]
    intro p hp
    have := hkeys p hp
    simp [hslug, this]
  show Inv ⟨dictInsertItem s.items item, s.next_id + 1,
      slugInsert s.slug_index item.slug item.id⟩
  rw [hins1, hins2]
  refine ⟨?_, ?_, ?_, ?_, ?_, ?_⟩
  · intro it hit
    rcases List.mem_append.mp hit with hold | hnew
    · exact slugGet_append_of_some (i1 it hold)
    · have : it = item := by simpa using hnew
      subst this
      rw [slugGet_append_of_none (by rw [hslug]; exact hfree)]
      unfold slugGet
      rw [List.find?_cons_of_pos _ (by simp)]
      rfl
  · intro p hp
    rcases List.mem_append.mp hp with hold | hnew
    · obtain ⟨it, h1, h2, h3⟩ := i2 p hold
      exact ⟨it, List.mem_append_left _ h1, h2, h3⟩
    · have : p = (item.slug, item.id) := by simpa using hnew
      subst this
      exact ⟨item, List.mem_append_right _ (by simp), rfl, rfl⟩
  · rw [List.pairwise_append]
    refine ⟨i3, by simp, ?_⟩
    intro a ha b hb
    have := i5 a ha
    have hb2 : b = item := by simpa using hb
    subst hb2
    rw [hid]
    omega
  · rw [List.pairwise_append]
    refine ⟨i4, by simp, ?_⟩
    intro a ha b hb
    have hb2 : b = (item.slug, item.id) := by simpa using hb
    subst hb2
    have := hkeys a ha
    simpa [hslug] using this
  · intro it2 hit2
    show it2.id < s.next_id + 1
    rcases List.mem_append.mp hit2 with hold | hnew
    · have := i5 it2 hold
      omega
    · have : it2 = item := by simpa using hnew
      subst this
      omega
  · show 1 ≤ s.next_id + 1
    omega

lemma applyUpdate_fields (item : Item) (data : ItemUpdate) (now : Nat) :
    (applyUpdate item data now).id = item.id ∧
    (applyUpdate item data now).slug = item.slug ∧
    (applyUpdate item data now).created_at = item.created_at ∧
    (applyUpdate item data now).updated_at = now ∧
    (applyUpdate item data now).name
      = (match data.name with | none => item.name | some v => v) ∧
    (applyUpdate item data now).description
      = (match data.description with | none => item.description | some v => v) := by
  cases hn : data.name <;> cases hd : data.description <;>
    simp [applyUpdate, hn, hd]

lemma update_item_some {s : ItemService} {item_id : Nat} {data : ItemUpdate}
    {now : Nat} {item2 : Item} {s2 : ItemService}
    (h : update_item s item_id data now = some (item2, s2)) :
    ∃ item, dictGetItem s.items item_id = some item ∧
      item2 = applyUpdate item data now ∧
      s2 = { s with items := dictInsertItem s.items item2 } := by
  unfold update_item at h
  cases hf : dictGetItem s.items item_id with
  | none => rw [hf] at h; simp at h
  | some item =>
    rw [hf] at h
    simp at h
    obtain ⟨h1, h2⟩ := h
    exact ⟨item, rfl, h1.symm, by rw [← h2, h1]⟩

lemma inv_update {s : ItemService} {item_id : Nat} {data : ItemUpdate}
    {now : Nat} {item2 : Item} {s2 : ItemService} (hi : Inv s)
    (h : update_item s item_id data now = some (item2, s2)) : Inv s2 := by
  obtain ⟨item, hf, rfl, rfl⟩ := update_item_some h
  obtain ⟨i1, i2, i3, i4, i5, i6⟩ := hi
  obtain ⟨hmem, hidq⟩ := dictGet_some hf
  obtain ⟨fid, fslug, fc, fu, fname, fdesc⟩ := applyUpdate_fields item data now
  set u := applyUpdate item data now with hu
  have hins : dictInsertItem s.items u
      = s.items.map (fun x => if x.id == u.id then u else x) := by
    unfold dictInsertItem
    rw [if_pos]
    exact List.any_eq_true.mpr ⟨item, hmem, by simp [fid]⟩
  have hmapid : ∀ x : Item, ((fun x => if x.id == u.id then u else x) x).id = x.id := by
    intro x
    by_cases hx : x.id = u.id
    · simp [hx]
    · simp [hx]
  show Inv { s with items := dictInsertItem s.items u }
  rw [hins]
  refine ⟨?_, ?_, ?_, ?_, ?_, ?_⟩
  · intro it hit
    show slugGet s.slug_index it.slug = some it.id
    obtain ⟨x, hx, hxe⟩ := List.mem_map.mp hit
    by_cases hxc : x.id = u.id
    · have : it = u := by rw [← hxe]; simp [hxc]
      subst this
      rw [fslug, fid]
      exact i1 item hmem
    · have : it = x := by rw [← hxe]; simp [hxc]
      subst this
      exact i1 _ hx
  · intro p hp
    have hp2 : p ∈ s.slug_index := hp
    obtain ⟨it, h1, h2, h3⟩ := i2 p hp2
    by_cases hic : it.id = u.id
    · have hitem : it = item := item_eq_of_id i3 h1 hmem (by rw [hic, fid])
      refine ⟨u, ?_, ?_, ?_⟩
      · exact List.mem_map.mpr ⟨it, h1, by simp [hic]⟩
      · rw [fid, ← hitem]; exact h2
      · rw [fslug, ← hitem]; exact h3
    · refine ⟨it, ?_, h2, h3⟩
      exact List.mem_map.mpr ⟨it, h1, by simp [hic]⟩
  · exact List.Pairwise.map _ (fun a b hab => by rw [hmapid, hmapid]; exact hab) i3
  · exact i4
  · intro it hit
    show it.id < s.next_id
    obtain ⟨x, hx, hxe⟩ := List.mem_map.mp hit
    rw [← hxe, hmapid]
    exact i5 x hx
  · exact i6



lemma slugGet_filter_ne {idx : List (Str × Nat)} {sl k : Str} (hne : sl ≠ k) :
    slugGet (idx.filter (fun p => !(p.1 == k))) sl = slugGet idx sl := by
  induction idx with
  | nil => rfl
  | cons q qs ih =>
    by_cases hq : q.1 = k
    · unfold slugGet at ih ⊢
      rw [List.filter_cons_of_neg (by simp [hq]),
        List.find?_cons_of_neg _ (by simp [hq, Ne.symm hne])]
      exact ih
    · unfold slugGet at ih ⊢
      rw [List.filter_cons_of_pos (by simp [hq])]
      by_cases hqsl : q.1 = sl
      · rw [List.find?_cons_of_pos _ (by simp [hqsl]), List.find?_cons_of_pos _ (by simp [hqsl])]
      · rw [List.find?_cons_of_neg _ (by simp [hqsl]), List.find?_cons_of_neg _ (by simp [hqsl])]
        exact ih

lemma slugGet_filter_self {idx : List (Str × Nat)} {k : Str} :
    slugGet (idx.filter (fun p => !(p.1 == k))) k = none := by
  unfold slugGet
  rw [List.find?_eq_none.mpr]
  · rfl
  · intro p hp
    have := (List.mem_filter.mp hp).2
    simp at this ⊢
    exact this

lemma dictGet_filter_self {l : List Item} {item_id : Nat} :
    dictGetItem (l.filter (fun x => !(x.id == item_id))) item_id = none := by
  unfold dictGetItem
  rw [List.find?_eq_none]
  intro x hx
  have := (List.mem_filter.mp hx).2
  simp at this ⊢
  exact this

lemma delete_item_cases {s : ItemService} {item_id : Nat} {b : Bool} {s2 : ItemService}
    (h : delete_item s item_id = some (b, s2)) :
    s2 = s ∨
    ∃ item, dictGetItem s.items item_id = some item ∧
      s2 = { s with items := s.items.filter (fun x => !(x.id == item_id)),
                    slug_index := s.slug_index.filter (fun p => !(p.1 == item.slug)) } := by
  unfold delete_item at h
  cases hf : dictGetItem s.items item_id with
  | none => rw [hf] at h; simp at h; exact .inl h.2.symm
  | some item =>
    rw [hf] at h
    dsimp only at h
    split_ifs at h with h1
    simp at h
    exact .inr ⟨item, rfl, h.2.symm⟩

lemma inv_delete {s : ItemService} {item_id : Nat} {b : Bool} {s2 : ItemService}
    (hi : Inv s) (h : delete_item s item_id = some (b, s2)) : Inv s2 := by
  rcases delete_item_cases h with rfl | ⟨item, hf, rfl⟩
  · exact hi
  obtain ⟨i1, i2, i3, i4, i5, i6⟩ := hi
  obtain ⟨hmem, hidq⟩ := dictGet_some hf
  refine ⟨?_, ?_, ?_, ?_, ?_, ?_⟩
  · intro it hit
    show slugGet (s.slug_index.filter (fun p => !(p.1 == item.slug))) it.slug = some it.id
    have hit2 := List.mem_filter.mp hit
    have hitne : it.id ≠ item_id := by simpa using hit2.2
    have hslugne : it.slug ≠ item.slug := by
      intro he
      have e1 := i1 it hit2.1
      have e2 := i1 item hmem
      rw [he, e2] at e1
      have : item.id = it.id := by simpa using e1
      exact hitne (by rw [← this, hidq])
    rw [slugGet_filter_ne hslugne]
    exact i1 it hit2.1
  · intro p hp
    have hp2 := List.mem_filter.mp hp
    obtain ⟨it, h1, h2, h3⟩ := i2 p hp2.1
    have hpne : p.1 ≠ item.slug := by simpa using hp2.2
    have hitne : it.id ≠ item_id := by
      intro he
      have : it = item := item_eq_of_id i3 h1 hmem (by rw [he, hidq])
      exact hpne (by rw [← h3, this])
    refine ⟨it, ?_, h2, h3⟩
    exact List.mem_filter.mpr ⟨h1, by simpa using hitne⟩
  · exact List.Pairwise.filter _ i3
  · exact List.Pairwise.filter _ i4
  · intro it hit
    show it.id < s.next_id
    exact i5 it (List.mem_filter.mp hit).1
  · exact i6

lemma inv_step {s t : ItemService} (hi : Inv s) (h : Step s t) : Inv t := by
  cases h with
  | create data now item he => exact inv_create hi he
  | update item_id data now item2 he => exact inv_update hi he
  | delete item_id b he => exact inv_delete hi he

lemma inv_steps {s t : ItemService} (hi : Inv s) (h : Steps s t) : Inv t := by
  induction h with
  | refl => exact hi
  | tail hst hstep ih => exact inv_step ih hstep

lemma reachable_inv {s : ItemService} (h : Reachable s) : Inv s :=
  inv_steps inv_init h

/-! Concrete states used by the witnesses. -/

lemma demoStore_create : create_item initService demoData 0 = (.ok demoItem, demoStore) := by
  decide

lemma demoStore_reachable : Reachable demoStore :=
  Steps.tail Steps.refl (Step.create demoData 0 demoItem demoStore_create)

/-! Properties of pyStrip needed for the sanitizer claims. -/

lemma pyStrip_head {l : Str} {c : Char} (h : (pyStrip l).head? = some c) :
    isPySpace c = false := by
  unfold pyStrip at h
  rw [List.head?_reverse] at h
  obtain ⟨t, ht⟩ := List.dropWhile_suffix (l := (l.dropWhile isPySpace).reverse) isPySpace
  have : ((l.dropWhile isPySpace).reverse).getLast? = some c := by
    rw [← ht, List.getLast?_append, h]
    rfl
  rw [List.getLast?_reverse] at this
  have hh := List.head?_dropWhile_not isPySpace l
  rw [this] at hh
  exact hh

lemma pyStrip_getLast {l : Str} {c : Char} (h : (pyStrip l).getLast? = some c) :
    isPySpace c = false := by
  unfold pyStrip at h
  rw [List.getLast?_reverse] at h
  have hh := List.head?_dropWhile_not isPySpace ((l.dropWhile isPySpace).reverse)
  rw [h] at hh
  exact hh

/-- Claim C7: the claim says validate_slug fails exactly when the input
is empty, has a character outside [a-z0-9-], has an edge hyphen, or has
a double hyphen, and otherwise returns the input unchanged. The code
uses re.match with a dollar anchor, and in Python the dollar anchor also
matches just before one trailing newline, so the string "abc" followed
by a newline is accepted and returned unchanged even though the newline
is outside the class: the code contradicts its own comment (only
lowercase letters, numbers and hyphens are allowed) at that input. All
the failure examples named by the spec behave as claimed. -/
theorem claim_C7 :
    validate_slug (str "abc\n") = .ok (str "abc\n") ∧
    '\n' ∈ str "abc\n" ∧
    slugChar '\n' = false ∧
    validate_slug (str "Invalid Slug!") = .error .badChars ∧
    validate_slug (str "a--b") = .error .doubleHyphen ∧
    validate_slug (str "-a") = .error .edgeHyphen ∧
    validate_slug (str "a-") = .error .edgeHyphen ∧
    validate_slug (str "valid-slug-1") = .ok (str "valid-slug-1") ∧
    validate_slug (str "") = .error .empty := by
  decide

/-- Claim C8: sanitize_string trims leading and trailing whitespace,
then strips the control characters 0x00-0x1f and 0x7f-0x9f, then
truncates to max_length; it never fails, the empty input yields the
empty string, and the spec example sanitizes to "hello". -/
theorem claim_C8 (value : Str) (max_length : Nat) :
    sanitize_string value max_length
      = ((pyStrip value).filter (fun c => !isCtl c)).take max_length ∧
    (sanitize_string value max_length).length ≤ max_length ∧
    (∀ c ∈ sanitize_string value max_length, isCtl c = false) ∧
    (∀ c, (pyStrip value).head? = some c → isPySpace c = false) ∧
    (∀ c, (pyStrip value).getLast? = some c → isPySpace c = false) ∧
    sanitize_string [] max_length = [] ∧
    sanitize_string (str " \x01hello\x01 ") 200 = str "hello" := by
  refine ⟨?_, sanitize_length value max_length, ?_, ?_, ?_, rfl, by decide⟩
  · rw [sanitize_string_eq]
    split_ifs with h1 h2
    · subst h1
      simp [pyStrip]
    · rfl
    · exact (List.take_of_length_le (by omega)).symm
  · intro c hc
    rw [sanitize_string_eq] at hc
    split_ifs at hc with h1 h2
    · simp at hc
    · have := List.mem_of_mem_take hc
      have := List.mem_filter.mp this
      simpa using this.2
    · have := List.mem_filter.mp hc
      simpa using this.2
  · intro c hc
    exact pyStrip_head hc
  · intro c hc
    exact pyStrip_getLast hc

/-- Claim C10: the single control character 0x01 passes the ItemCreate
validation (its length is 1, satisfying the min-length check applied
before sanitization) but sanitizes to the empty name; create_item on the
resulting payload with a free valid slug then fails with the name
min-length field-validation error raised by the Item constructor, which
is neither the duplicate-slug error nor a slug error, and the store,
including the id counter, is returned unchanged. -/
theorem claim_C10 (s : ItemService) (now : Nat)
    (hfree : slugGet s.slug_index (str "ok") = none) :
    mkItemCreate (str "\x01") (str "ok") none = .ok ⟨[], str "ok", none⟩ ∧
    create_item s ⟨[], str "ok", none⟩ now
      = (.error (.validation .nameTooShort), s) := by
  constructor
  · decide
  · simp [create_item, hfree, mkItem, validateName, Bind.bind, Except.bind]

theorem claim_C10_witness :
    slugGet initService.slug_index (str "ok") = none ∧
    (mkItemCreate (str "\x01") (str "ok") none = .ok ⟨[], str "ok", none⟩ ∧
      create_item initService ⟨[], str "ok", none⟩ 3
        = (.error (.validation .nameTooShort), initService)) :=
  ⟨by decide, claim_C10 initService 3 (by decide)⟩

/-- Claim C2: when the requested slug is already indexed, create_item
raises the duplicate-slug error and returns the store unchanged (same
items, same indexes, same counter), and any later successful create on
that store is assigned the current value of the counter, so the failed
attempt did not consume an id. -/
theorem claim_C2 (s : ItemService) (data : ItemCreate) (now : Nat)
    (h : (slugGet s.slug_index data.slug).isSome) :
    create_item s data now = (.error (.duplicateSlug data.slug), s) ∧
    (∀ d2 n2 it2 s2, create_item s d2 n2 = (.ok it2, s2) → it2.id = s.next_id) := by
  constructor
  · unfold create_item
    rw [if_pos h]
  · intro d2 n2 it2 s2 he
    obtain ⟨_, hmk, _⟩ := create_item_ok he
    exact (mkItem_ok hmk).1

theorem claim_C2_witness :
    ((slugGet demoStore.slug_index (str "demo")).isSome = true) ∧
    (create_item demoStore ⟨str "x", str "demo", none⟩ 7
        = (.error (.duplicateSlug (str "demo")), demoStore) ∧
      (∀ d2 n2 it2 s2, create_item demoStore d2 n2 = (.ok it2, s2)
        → it2.id = demoStore.next_id)) :=
  ⟨by decide, claim_C2 demoStore ⟨str "x", str "demo", none⟩ 7 (by decide)⟩



lemma update_found {s : ItemService} {item_id : Nat} {data : ItemUpdate} {now : Nat}
    {item : Item} (hget : get_item s item_id = some item) :
    ∃ item2 s2, update_item s item_id data now = some (item2, s2) ∧
      item2.slug = item.slug ∧ item2.created_at = item.created_at ∧
      item2.id = item.id ∧ item2.updated_at = now ∧
      item2.name = (match data.name with | none => item.name | some v => v) ∧
      item2.description
        = (match data.description with | none => item.description | some v => v) ∧
      get_item s2 item_id = some item2 := by
  have hf : dictGetItem s.items item_id = some item := hget
  obtain ⟨hm, hid⟩ := dictGet_some hf
  obtain ⟨fid, fslug, fc, fu, fname, fdesc⟩ := applyUpdate_fields item data now
  refine ⟨applyUpdate item data now,
    { s with items := dictInsertItem s.items (applyUpdate item data now) },
    ?_, fslug, fc, fid, fu, fname, fdesc, ?_⟩
  · unfold update_item
    rw [hf]
  · show dictGetItem (dictInsertItem s.items (applyUpdate item data now)) item_id
      = some (applyUpdate item data now)
    have hins : dictInsertItem s.items (applyUpdate item data now)
        = s.items.map (fun x =>
            if x.id == (applyUpdate item data now).id then applyUpdate item data now else x) := by
      unfold dictInsertItem
      rw [if_pos]
      exact List.any_eq_true.mpr ⟨item, hm, by simp [fid]⟩
    rw [hins]
    unfold dictGetItem
    rw [List.find?_map]
    have hpf : ((fun it : Item => it.id == item_id)
          ∘ (fun x => if x.id == (applyUpdate item data now).id
              then applyUpdate item data now else x))
        = (fun x : Item => x.id == item_id) := by
      funext x
      by_cases hx : x.id = (applyUpdate item data now).id
      · simp [Function.comp, hx, fid, hid]
      · simp [Function.comp, hx]
    rw [hpf, show List.find? (fun x : Item => x.id == item_id) s.items = some item from hf]
    simp [fid, hid]

/-- Claim C4: on a stored id, update_item succeeds and applies exactly
the explicitly set fields of the payload: slug, created_at and id are
unchanged (slug is not an updatable field), updated_at is set to the
current time unconditionally, even for a payload with no fields set, and
the updated item is returned and stored. -/
theorem claim_C4 (s : ItemService) (item_id : Nat) (data : ItemUpdate) (now : Nat)
    (item : Item) (hget : get_item s item_id = some item) :
    ∃ item2 s2, update_item s item_id data now = some (item2, s2) ∧
      item2.slug = item.slug ∧ item2.created_at = item.created_at ∧
      item2.id = item.id ∧ item2.updated_at = now ∧
      item2.name = (match data.name with | none => item.name | some v => v) ∧
      item2.description
        = (match data.description with | none => item.description | some v => v) ∧
      get_item s2 item_id = some item2 :=
  update_found hget

theorem claim_C4_witness :
    ∃ item2 s2, update_item demoStore 1 ⟨none, none⟩ 9 = some (item2, s2) ∧
      item2.slug = demoItem.slug ∧ item2.created_at = demoItem.created_at ∧
      item2.id = demoItem.id ∧ item2.updated_at = 9 ∧
      item2.name = demoItem.name ∧
      item2.description = demoItem.description ∧
      get_item s2 1 = some item2 :=
  claim_C4 demoStore 1 ⟨none, none⟩ 9 demoItem (by decide)

/-- Claim C9: a payload whose name is explicitly set to null passes the
ItemUpdate validation, and update_item applies the null just like any
other explicitly set value: the stored and returned item has a null
name, because plain attribute assignment does not re-check the
non-empty-name constraint. -/
theorem claim_C9 (s : ItemService) (item_id : Nat) (item : Item) (now : Nat)
    (hget : get_item s item_id = some item) :
    mkItemUpdate (some none) none = .ok ⟨some none, none⟩ ∧
    ∃ item2 s2, update_item s item_id ⟨some none, none⟩ now = some (item2, s2) ∧
      item2.name = none ∧ item2.id = item.id ∧
      get_item s2 item_id = some item2 := by
  refine ⟨by decide, ?_⟩
  obtain ⟨item2, s2, he, hslug, hc, hidq, hu, hname, hdesc, hget2⟩ :=
    @update_found s item_id ⟨some none, none⟩ now item hget
  exact ⟨item2, s2, he, by rw [hname], hidq, hget2⟩

theorem claim_C9_witness :
    mkItemUpdate (some none) none = .ok ⟨some none, none⟩ ∧
    ∃ item2 s2, update_item demoStore 1 ⟨some none, none⟩ 4 = some (item2, s2) ∧
      item2.name = none ∧ item2.id = demoItem.id ∧
      get_item s2 1 = some item2 :=
  claim_C9 demoStore 1 demoItem 4 (by decide)

/-- Claim C1: on every reachable store state the two indexes are
mutually consistent: every stored item can be found back through the
slug index at its own id, every slug-index entry resolves to a live item
with that slug, and no two live items share a slug. Reachability
quantifies over arbitrary sequences of create_item, update_item and
delete_item calls, so the invariant is preserved by all three. -/
theorem claim_C1 (s : ItemService) (h : Reachable s) :
    (∀ i it, get_item s i = some it → slugGet s.slug_index it.slug = some i) ∧
    (∀ sl i, slugGet s.slug_index sl = some i →
      ∃ it, get_item s i = some it ∧ it.slug = sl) ∧
    (∀ it1 it2, it1 ∈ s.items → it2 ∈ s.items → it1.slug = it2.slug → it1 = it2) := by
  obtain ⟨i1, i2, i3, i4, i5, i6⟩ := reachable_inv h
  refine ⟨?_, ?_, ?_⟩
  · intro i it hget
    obtain ⟨hm, hid⟩ := dictGet_some hget
    rw [← hid]
    exact i1 it hm
  · intro sl i hsg
    obtain ⟨p, hp, hp1, hp2, _⟩ := slugGet_some hsg
    obtain ⟨it, h1, h2, h3⟩ := i2 p hp
    refine ⟨it, ?_, by rw [h3, hp1]⟩
    have hgm := dictGet_of_mem i3 h1
    show dictGetItem s.items i = some it
    rw [← hp2, ← h2]
    exact hgm
  · intro it1 it2 hm1 hm2 hsl
    have e1 := i1 it1 hm1
    have e2 := i1 it2 hm2
    rw [hsl, e2] at e1
    exact item_eq_of_id i3 hm1 hm2 (Option.some.inj e1).symm

theorem claim_C1_witness :
    (∀ i it, get_item demoStore i = some it
      → slugGet demoStore.slug_index it.slug = some i) ∧
    (∀ sl i, slugGet demoStore.slug_index sl = some i →
      ∃ it, get_item demoStore i = some it ∧ it.slug = sl) ∧
    (∀ it1 it2, it1 ∈ demoStore.items → it2 ∈ demoStore.items
      → it1.slug = it2.slug → it1 = it2) :=
  claim_C1 demoStore demoStore_reachable



lemma append_get {l : List Item} {it : Item} (hnone : ∀ x ∈ l, x.id ≠ it.id) :
    dictGetItem (l ++ [it]) it.id = some it := by
  have hleft : l.find? (fun x => x.id == it.id) = none :=
    List.find?_eq_none.mpr (fun x hx => by simpa using hnone x hx)
  unfold dictGetItem
  rw [List.find?_append, hleft]
  simp

/-- Claim C5 (amended): create followed by get returns the stored item,
whose slug is the input slug, whose id is the counter value (positive),
whose timestamps are both the creation time, and whose name and
description are the input name and description passed once more through
sanitization by the Item constructor (the identity whenever the input
has no leading or trailing whitespace left after control stripping). -/
theorem claim_C5 (s : ItemService) (rn rs : Str) (rd : Option Str)
    (data : ItemCreate) (now : Nat)
    (hre : Reachable s) (hmk : mkItemCreate rn rs rd = .ok data)
    (hfree : slugGet s.slug_index data.slug = none) (hname : data.name ≠ []) :
    ∃ item s2, create_item s data now = (.ok item, s2) ∧
      get_item s2 item.id = some item ∧
      item.id = s.next_id ∧ 0 < item.id ∧
      item.slug = data.slug ∧
      item.name = some (sanitize_string data.name 200) ∧
      item.description = data.description.map (fun d => sanitize_string d 1000) ∧
      item.created_at = now ∧ item.updated_at = now := by
  obtain ⟨i1, i2, i3, i4, i5, i6⟩ := reachable_inv hre
  obtain ⟨hdn, hds, hdd, hvs⟩ := mkItemCreate_ok hmk
  have hvn : validateName data.name = .ok (sanitize_string data.name 200) :=
    validateName_ok_of hname (by rw [hdn]; exact sanitize_length rn 200)
  have hvs2 : validateSlugField data.slug = .ok data.slug := by
    rw [hds]
    exact hvs
  have hvd : validateDescription data.description
      = .ok (data.description.map (fun d => sanitize_string d 1000)) := by
    cases hdd2 : data.description with
    | none => rfl
    | some d =>
      rw [hdd] at hdd2
      cases rd with
      | none => simp at hdd2
      | some d0 =>
        simp at hdd2
        subst hdd2
        simp only [validateDescription]
        rw [if_neg (by have := sanitize_length d0 1000; omega)]
        rfl
  have hmkeq : mkItem s.next_id data.name data.slug data.description now now
      = .ok ⟨s.next_id, some (sanitize_string data.name 200), data.slug,
          data.description.map (fun d => sanitize_string d 1000), now, now⟩ := by
    unfold mkItem
    rw [hvn, hvs2, hvd]
    rfl
  have hins1 : dictInsertItem s.items
        ⟨s.next_id, some (sanitize_string data.name 200), data.slug,
          data.description.map (fun d => sanitize_string d 1000), now, now⟩
      = s.items ++ [⟨s.next_id, some (sanitize_string data.name 200), data.slug,
          data.description.map (fun d => sanitize_string d 1000), now, now⟩] := by
    unfold dictInsertItem
    rw [if_neg]
    simp only [List.any_eq_true, not_exists, not_and]
    intro x hx
    have := i5 x hx
    simp only [beq_iff_eq]
    omega
  have hkeys : ∀ p ∈ s.slug_index, p.1 ≠ data.slug := by
    intro p hp
    have hfn : s.slug_index.find? (fun q => q.1 == data.slug) = none := by
      unfold slugGet at hfree
      exact Option.map_eq_none'.mp hfree
    have := List.find?_eq_none.mp hfn p hp
    simpa using this
  have hins2 : slugInsert s.slug_index data.slug s.next_id
      = s.slug_index ++ [(data.slug, s.next_id)] := by
    unfold slugInsert
    rw [if_neg]
    simp only [List.any_eq_true, not_exists, not_and]
    intro p hp
    have := hkeys p hp
    simpa using this
  have hcr : create_item s data now
      = (.ok ⟨s.next_id, some (sanitize_string data.name 200), data.slug,
            data.description.map (fun d => sanitize_string d 1000), now, now⟩,
          ⟨s.items ++ [⟨s.next_id, some (sanitize_string data.name 200), data.slug,
            data.description.map (fun d => sanitize_string d 1000), now, now⟩],
           s.next_id + 1, s.slug_index ++ [(data.slug, s.next_id)]⟩) := by
    unfold create_item
    rw [hfree]
    rw [if_neg (by simp)]
    rw [hmkeq]
    dsimp only
    rw [hins1, hins2]
  refine ⟨_, _, hcr, ?_, rfl, i6, rfl, rfl, rfl, rfl, rfl⟩
  exact append_get (fun x hx => by show x.id ≠ s.next_id; have := i5 x hx; omega)

theorem claim_C5_witness :
    ∃ item s2, create_item initService ⟨str "hello", str "ok", none⟩ 7
        = (.ok item, s2) ∧
      get_item s2 item.id = some item ∧
      item.id = initService.next_id ∧ 0 < item.id ∧
      item.slug = str "ok" ∧
      item.name = some (sanitize_string (str "hello") 200) ∧
      item.description = none ∧
      item.created_at = 7 ∧ item.updated_at = 7 :=
  claim_C5 initService (str "hello") (str "ok") none ⟨str "hello", str "ok", none⟩ 7
    Steps.refl (by decide) (by decide) (by decide)

/-- Counterexample to claim C5 as stated: the raw name below passes
ItemCreate validation with the value of cexData, but create followed by
get returns an item whose name differs from that validated input (and
from the raw input), because the Item constructor sanitizes again and
sanitization is not idempotent. -/
theorem claim_C5_counterexample :
    mkItemCreate (str " \x01 x") (str "cex") none = .ok cexData ∧
    create_item initService cexData 5 = (.ok cexItem, cexStore) ∧
    get_item cexStore cexItem.id = some cexItem ∧
    cexItem.name ≠ some cexData.name ∧
    cexItem.name ≠ some (str " \x01 x") := by
  decide



lemma mem_dictInsertItem {l : List Item} {it x : Item}
    (h : x ∈ dictInsertItem l it) : x ∈ l ∨ x = it := by
  unfold dictInsertItem at h
  split_ifs at h
  · obtain ⟨y, hy, hye⟩ := List.mem_map.mp h
    by_cases hc : y.id = it.id
    · right
      rw [← hye]
      simp [hc]
    · left
      rw [← hye]
      simpa [hc] using hy
  · rcases List.mem_append.mp h with h2 | h2
    · exact .inl h2
    · right
      simpa using h2

lemma idFree_step {i : Nat} {s t : ItemService} (h : Step s t) (hf : IdFree i s) :
    IdFree i t := by
  obtain ⟨h1, h2⟩ := hf
  cases h with
  | create data now item he =>
    obtain ⟨_, hmk, rfl⟩ := create_item_ok he
    have hid := (mkItem_ok hmk).1
    constructor
    · intro it hit
      rcases mem_dictInsertItem hit with hold | rfl
      · exact h1 it hold
      · show it.id ≠ i
        rw [hid]
        omega
    · show i < s.next_id + 1
      omega
  | update item_id data now item2 he =>
    obtain ⟨item, hf2, rfl, rfl⟩ := update_item_some he
    constructor
    · intro it hit
      rcases mem_dictInsertItem hit with hold | rfl
      · exact h1 it hold
      · show (applyUpdate item data now).id ≠ i
        rw [(applyUpdate_fields item data now).1]
        exact h1 item (dictGet_some hf2).1
    · exact h2
  | delete item_id b he =>
    rcases delete_item_cases he with rfl | ⟨item, hf2, rfl⟩
    · exact ⟨h1, h2⟩
    · exact ⟨fun it hit => h1 it (List.mem_filter.mp hit).1, h2⟩

lemma idFree_steps {i : Nat} {s t : ItemService} (h : Steps s t) (hf : IdFree i s) :
    IdFree i t := by
  induction h with
  | refl => exact hf
  | tail hst hstep ih => exact idFree_step hstep ih

/-- Claim C6: deleting a stored id returns True, removes the item from
both indexes (get by id and get by the former slug both return absent),
frees the slug (it is no longer indexed, so a later create with it is
never rejected as a duplicate), and the numeric id is never carried by
any item in any store reachable from the deleted state, because the
counter is monotone and already beyond it. -/
theorem claim_C6 (s : ItemService) (item_id : Nat) (item : Item)
    (hre : Reachable s) (hget : get_item s item_id = some item) :
    ∃ s2, delete_item s item_id = some (true, s2) ∧
      get_item s2 item_id = none ∧
      get_item_by_slug s2 item.slug = none ∧
      slugGet s2.slug_index item.slug = none ∧
      (∀ d n2, (create_item s2 d n2).1 ≠ .error (.duplicateSlug item.slug)) ∧
      (∀ t, Steps s2 t → get_item t item_id = none) := by
  obtain ⟨i1, i2, i3, i4, i5, i6⟩ := reachable_inv hre
  have hf : dictGetItem s.items item_id = some item := hget
  obtain ⟨hm, hid⟩ := dictGet_some hf
  have hsg : slugGet s.slug_index item.slug = some item.id := i1 item hm
  have hsome : (slugGet s.slug_index item.slug).isSome := by
    rw [hsg]
    rfl
  have hdel : delete_item s item_id = some (true,
      { s with items := s.items.filter (fun x => !(x.id == item_id)),
               slug_index := s.slug_index.filter (fun p => !(p.1 == item.slug)) }) := by
    unfold delete_item
    rw [hf]
    dsimp only
    rw [if_pos hsome]
  refine ⟨_, hdel, ?_, ?_, ?_, ?_, ?_⟩
  · exact dictGet_filter_self
  · show get_item_by_slug _ item.slug = none
    unfold get_item_by_slug
    rw [show slugGet (s.slug_index.filter (fun p => !(p.1 == item.slug))) item.slug = none
      from slugGet_filter_self]
  · exact slugGet_filter_self
  · intro d n2 hcontra
    unfold create_item at hcontra
    split_ifs at hcontra with hdup
    · have hds : d.slug = item.slug := by simpa using hcontra
      rw [hds] at hdup
      rw [show slugGet (s.slug_index.filter (fun p => !(p.1 == item.slug))) item.slug = none
        from slugGet_filter_self] at hdup
      simp at hdup
    · cases hmk2 : mkItem ({ s with
          items := s.items.filter (fun x => !(x.id == item_id)),
          slug_index := s.slug_index.filter (fun p => !(p.1 == item.slug)) }).next_id
          d.name d.slug d.description n2 n2 with
      | error e => rw [hmk2] at hcontra; simp at hcontra
      | ok it2 => rw [hmk2] at hcontra; simp at hcontra
  · intro t hsteps
    have hfree0 : IdFree item_id
        { s with items := s.items.filter (fun x => !(x.id == item_id)),
                 slug_index := s.slug_index.filter (fun p => !(p.1 == item.slug)) } := by
      constructor
      · intro it hit
        have := (List.mem_filter.mp hit).2
        simpa using this
      · show item_id < s.next_id
        rw [← hid]
        exact i5 item hm
    obtain ⟨hall, _⟩ := idFree_steps hsteps hfree0
    unfold get_item dictGetItem
    rw [List.find?_eq_none]
    intro x hx
    simpa using hall x hx

theorem claim_C6_witness :
    ∃ s2, delete_item demoStore 1 = some (true, s2) ∧
      get_item s2 1 = none ∧
      get_item_by_slug s2 demoItem.slug = none ∧
      slugGet s2.slug_index demoItem.slug = none ∧
      (∀ d n2, (create_item s2 d n2).1 ≠ .error (.duplicateSlug demoItem.slug)) ∧
      (∀ t, Steps s2 t → get_item t 1 = none) :=
  claim_C6 demoStore 1 demoItem demoStore_reachable (by decide)



lemma take_min_length {l : List Item} (k : Nat) : l.take (min k l.length) = l.take k := by
  rcases Nat.le_total k l.length with h | h
  · rw [Nat.min_eq_left h]
  · rw [Nat.min_eq_right h, List.take_length, List.take_of_length_le h]

lemma list_items_nonneg (s : ItemService) (skip limit : Int)
    (h1 : 0 ≤ skip) (h2 : 0 ≤ limit) :
    list_items s skip limit
      = ((sortById s.items).drop skip.toNat).take limit.toNat := by
  simp only [list_items, pySlice]
  rw [if_neg (by omega), if_neg (by omega)]
  have e1 : (min skip ((sortById s.items).length : Int)).toNat
      = min skip.toNat (sortById s.items).length := by omega
  have e2 : (min (skip + limit) ((sortById s.items).length : Int)).toNat
      = min (skip.toNat + limit.toNat) (sortById s.items).length := by omega
  rw [e1, e2]
  generalize sortById s.items = l
  rw [List.take_drop, take_min_length]
  rcases Nat.le_total skip.toNat l.length with h | h
  · rw [Nat.min_eq_left h]
  · rw [Nat.min_eq_right h]
    have d1 : (l.take (skip.toNat + limit.toNat)).drop l.length = [] := by
      rw [List.drop_eq_nil_iff, List.length_take]
      omega
    have d2 : (l.take (skip.toNat + limit.toNat)).drop skip.toNat = [] := by
      rw [List.drop_eq_nil_iff, List.length_take]
      omega
    rw [d1, d2]

/-- Claim C3 (amended): for a nonnegative skip and a nonnegative limit,
list_items returns the live items sorted strictly ascending by id with
the first skip dropped and at most limit kept (limit zero gives the
empty list); a negative skip or a negative limit instead follows the
Python slice semantics, where negative indices count from the end of
the list, and can return a non-empty result. -/
theorem claim_C3 (s : ItemService) (skip limit : Int) (hre : Reachable s)
    (hskip : 0 ≤ skip) (hlimit : 0 ≤ limit) :
    list_items s skip limit
      = ((sortById s.items).drop skip.toNat).take limit.toNat ∧
    (sortById s.items).Perm s.items ∧
    (sortById s.items).Pairwise (fun a b => a.id < b.id) ∧
    (list_items s skip limit).Pairwise (fun a b => a.id < b.id) ∧
    (∀ it ∈ list_items s skip limit, it ∈ s.items) ∧
    (list_items s skip limit).length ≤ limit.toNat := by
  obtain ⟨i1, i2, i3, i4, i5, i6⟩ := reachable_inv hre
  have hperm : (sortById s.items).Perm s.items := List.perm_insertionSort _ _
  have hsorted : (sortById s.items).Pairwise (fun a b => a.id ≤ b.id) :=
    List.sorted_insertionSort _ _
  have hne : (sortById s.items).Pairwise (fun a b => a.id ≠ b.id) := by
    refine (List.Perm.pairwise_iff ?_ hperm).mpr i3
    intro a b hab
    exact hab.symm
  have hlt : (sortById s.items).Pairwise (fun a b => a.id < b.id) :=
    (hsorted.and hne).imp (fun hab => Nat.lt_of_le_of_ne hab.1 hab.2)
  have heq := list_items_nonneg s skip limit hskip hlimit
  have hsub : List.Sublist (list_items s skip limit) (sortById s.items) := by
    rw [heq]
    exact (List.take_sublist _ _).trans (List.drop_sublist _ _)
  refine ⟨heq, hperm, hlt, List.Pairwise.sublist hsub hlt, ?_, ?_⟩
  · intro it hit
    exact hperm.mem_iff.mp (hsub.subset hit)
  · rw [heq, List.length_take]
    exact Nat.min_le_left _ _

theorem claim_C3_witness :
    list_items demoStore 0 5
      = ((sortById demoStore.items).drop (0 : Int).toNat).take (5 : Int).toNat ∧
    (sortById demoStore.items).Perm demoStore.items ∧
    (sortById demoStore.items).Pairwise (fun a b => a.id < b.id) ∧
    (list_items demoStore 0 5).Pairwise (fun a b => a.id < b.id) ∧
    (∀ it ∈ list_items demoStore 0 5, it ∈ demoStore.items) ∧
    (list_items demoStore 0 5).length ≤ (5 : Int).toNat :=
  claim_C3 demoStore 0 5 demoStore_reachable (by decide) (by decide)

/-- Counterexample to claim C3 as stated: on the reachable one-item
store, a negative skip with a positive limit returns the item rather
than the empty list, because Python slicing interprets the negative
bound from the end of the list. -/
theorem claim_C3_counterexample :
    Reachable demoStore ∧ (-1 : Int) < 0 ∧ list_items demoStore (-1) 2 ≠ [] :=
  ⟨demoStore_reachable, by decide, by decide⟩

end ItemApp
